import Mathlib

/-!
# Verification of `src/algorithm.js` (picture-color-theme-picker)

Shallow embedding of the color-clustering core:

* `ColorPoint` models the JS 3-element RGB arrays (channels are JS numbers;
  all values reached by the algorithm on integer input are integers, so we
  use `ℤ`).
* JS `Math.round(x)` is `⌊x + 1/2⌋` (half rounds toward +∞); for a rational
  `num/den` with `den > 0` this is `(2*num + den).fdiv (2*den)`, and on `ℚ`
  it is `⌊q + 1/2⌋`.
* `euclideanDistance` computes `Math.sqrt` of a sum of squares and is used
  only in comparisons (`> 1` in `isConverged`, argmin in the assignment
  step).  Since `Real.sqrt` is strictly monotone on nonnegatives, the
  executable definitions compare the radicands (`euclideanDistanceSq`); the
  theorems restate the properties in terms of `Real.sqrt` of the radicand,
  which is literally the source's distance.
* Randomness is injected: the in-place random shuffle of line 39 is a
  permutation parameter (`applyPerm σ` for a permutation `σ` of the index
  range), and the empty-cluster reseed of line 54 draws from an oracle
  `rnd : Nat → Nat → Nat` (pass number, cluster index), reduced mod the
  input length exactly as `Math.floor(Math.random()*len)` always lands in
  `[0, len)`.
* The `while` loop `while (!isConverged(old, centers) && iterations++ <= max)`
  tests `iterations ≤ max` before incrementing, so the remaining iteration
  budget at loop entry is exactly `max + 1 - iterations`; the loop is
  embedded with that budget as structural fuel, which is an exact
  translation, not an approximation.
-/

/-- An RGB color point `[r, g, b]`. -/
structure ColorPoint where
  r : ℤ
  g : ℤ
  b : ℤ
deriving DecidableEq, Repr, Inhabited

/-- Radicand of `euclideanDistance` (source lines 9–15): the sum of squared
channel differences.  The source returns `Math.sqrt` of this value; all its
uses are order comparisons, which `Real.sqrt`'s strict monotonicity carries
to the radicand (see the bridging lemmas below). -/
def euclideanDistanceSq (p1 p2 : ColorPoint) : ℤ :=
  (p1.r - p2.r) ^ 2 + (p1.g - p2.g) ^ 2 + (p1.b - p2.b) ^ 2

/-- JS `Math.round(num / den)` for integers with `den > 0`:
`⌊num/den + 1/2⌋ = (2*num + den) fdiv (2*den)`. -/
def jsRound (num den : ℤ) : ℤ :=
  (2 * num + den).fdiv (2 * den)

/-- JS `Math.round` on a rational: `⌊q + 1/2⌋` (half rounds up). -/
def jsRoundQ (q : ℚ) : ℤ :=
  ⌊q + 1 / 2⌋

/-- JS `Math.min(...l)` over a nonempty spread list (`0` junk for `[]`,
unreachable: the algorithm only takes the min of nonempty distance lists). -/
def listMin : List ℤ → ℤ
  | [] => 0
  | [x] => x
  | x :: y :: xs => min x (listMin (y :: xs))

/-- `distances.indexOf(Math.min(...distances))` (source line 49): the FIRST
index attaining the minimum.  `indexOf` returns the first position whose
element equals the overall minimum, which is what this structural recursion
computes: the head wins every tie with the tail. -/
def idxOfMin : List ℤ → Nat
  | [] => 0
  | [_] => 0
  | x :: y :: xs => if x ≤ listMin (y :: xs) then 0 else idxOfMin (y :: xs) + 1

/-- Index of the first center at minimum distance from `pixel`
(source lines 48–49).  The source compares `Math.sqrt` values; the argmin is
unchanged by dropping the monotone `sqrt`. -/
def nearestIdx (centers : List ColorPoint) (pixel : ColorPoint) : Nat :=
  idxOfMin (centers.map fun c => euclideanDistanceSq c pixel)

/-- `clusters[i].push(p)` (source line 50): append `p` to the `i`-th bucket. -/
def pushAt (clusters : List (List ColorPoint)) (i : Nat) (p : ColorPoint) :
    List (List ColorPoint) :=
  clusters.set i (clusters.getD i [] ++ [p])

/-- Assignment step (source lines 44–51): start from `k` empty clusters and
push every pixel, in input order, onto the cluster of its nearest center. -/
def assignClusters (centers : List ColorPoint) (k : Nat)
    (pixels : List ColorPoint) : List (List ColorPoint) :=
  pixels.foldl (fun cl p => pushAt cl (nearestIdx centers p) p)
    (List.replicate k [])

/-- New center of a nonempty cluster (source lines 56–61): component-wise sum
via `reduce`, then `Math.round(sum / points.length)` per channel. -/
def clusterMean (points : List ColorPoint) : ColorPoint :=
  let n : ℤ := points.length
  ⟨jsRound ((points.map ColorPoint.r).sum) n,
   jsRound ((points.map ColorPoint.g).sum) n,
   jsRound ((points.map ColorPoint.b).sum) n⟩

/-- One update step (source lines 52–63): map over the clusters; an empty
cluster is re-seeded with `pixels_array[Math.floor(Math.random()*len)]`
(oracle value reduced mod the length, always in range like the source's
draw), a nonempty one gets its rounded mean.  `t` is the pass number, used
only to address the random oracle. -/
def updateStep (rnd : Nat → Nat → Nat) (t : Nat) (pixels : List ColorPoint)
    (k : Nat) (centers : List ColorPoint) : List ColorPoint :=
  (assignClusters centers k pixels).enum.map fun jc =>
    if jc.2.isEmpty then pixels.getD (rnd t jc.1 % pixels.length) default
    else clusterMean jc.2

/-- Pairwise scan of `isConverged` (source lines 25–27): walk the two lists
in step; a pair at distance `> 1` returns `false`.  When `old` is longer
than `new` the source reads `new[i] === undefined`, the distance is `NaN`,
and `NaN > 1` is `false`, so those iterations never return `false` — hence
the scan simply stops with `true`, matching the truncating recursion. -/
def convPairs : List ColorPoint → List ColorPoint → Bool
  | [], _ => true
  | _ :: _, [] => true
  | a :: as, b :: bs =>
    if euclideanDistanceSq a b ≤ 1 then convPairs as bs else false

/-- `isConverged` (source lines 23–29): `false` on an empty `old_centers`,
otherwise every index-aligned pair must be at Euclidean distance `≤ 1`
(compared on the radicand: `sqrt d ≤ 1 ↔ d ≤ 1`). -/
def isConverged (old_centers new_centers : List ColorPoint) : Bool :=
  if old_centers.isEmpty then false else convPairs old_centers new_centers

/-- The `while` loop of `kmeans` (source lines 42–64), with the remaining
iteration budget `max_iterations + 1 - iterations` as structural fuel and
`t` the current value of `iterations`.  Returns the final centers and the
number of assignment/update passes executed.  The convergence test runs
before the budget test, exactly like the short-circuit `&&`. -/
def kmeansLoop (rnd : Nat → Nat → Nat) (pixels : List ColorPoint) (k : Nat) :
    Nat → Nat → List ColorPoint → List ColorPoint → List ColorPoint × Nat
  | fuel, t, old_centers, centers =>
    if isConverged old_centers centers then (centers, 0)
    else
      match fuel with
      | 0 => (centers, 0)
      | fuel' + 1 =>
        let centers' := updateStep rnd t pixels k centers
        let rest := kmeansLoop rnd pixels k fuel' (t + 1) centers centers'
        (rest.1, rest.2 + 1)

/-- Result of a `kmeans` call: the returned centers, the caller's
`pixels_array` as it stands AFTER the call (line 39's `sort` shuffles it in
place), and the number of assignment/update passes executed. -/
structure KmeansResult where
  centers : List ColorPoint
  pixelsAfter : List ColorPoint
  passes : Nat
deriving DecidableEq, Repr

/-- `kmeans(pixels_array, k, max_iterations)` (source lines 38–66), with the
randomized in-place shuffle of line 39 injected as `shuffle` and the reseed
draws as `rnd`.  `centers` starts as the first `k` elements of the shuffled
array (`slice(0, k)`); the loop runs with `iterations = 0` and budget
`max_iterations + 1`.  The shuffled array is also the post-call state of the
caller's `pixels_array`, because `Array.prototype.sort` mutates in place. -/
def kmeans (shuffle : List ColorPoint → List ColorPoint)
    (rnd : Nat → Nat → Nat) (pixels : List ColorPoint)
    (k maxIterations : Nat) : KmeansResult :=
  let shuffled := shuffle pixels
  let centers0 := shuffled.take k
  let r := kmeansLoop rnd shuffled k (maxIterations + 1) 0 [] centers0
  ⟨r.1, shuffled, r.2⟩

/-- Outcome of sorting with the inconsistent comparator
`() => 0.5 - Math.random()` (line 39): some rearrangement of the array,
given by a list `σ` of positions (`sort` only moves elements, so `σ` is a
permutation of the index range whenever the engine is done).  `applyPerm σ l`
reads off `l` at the positions of `σ`. -/
def applyPerm (σ : List Nat) (l : List ColorPoint) : List ColorPoint :=
  σ.filterMap l.get?

/-- `Math.max(r, g, b)` over the raw channels. -/
def maxChannel (p : ColorPoint) : ℤ :=
  max p.r (max p.g p.b)

/-- `Math.min(r, g, b)` over the raw channels. -/
def minChannel (p : ColorPoint) : ℤ :=
  min p.r (min p.g p.b)

/-- `getHue` (source lines 100–123).  In the chromatic case the source
computes `(g-b)/delta % 6` — a JS float remainder, which is the identity
here because `(g-b)/delta ∈ [-1, 1]` — or `(b-r)/delta + 2`, or
`(r-g)/delta + 4`, multiplies by 60 and rounds: embedded as one integer
rounding of the common denominator form.  Negative results wrap by +360. -/
def getHue (p : ColorPoint) : ℤ :=
  let mx := maxChannel p
  let mn := minChannel p
  if mx = mn then 0
  else
    let delta := mx - mn
    let hue :=
      if mx = p.r then jsRound (60 * (p.g - p.b)) delta
      else if mx = p.g then jsRound (60 * (p.b - p.r) + 120 * delta) delta
      else jsRound (60 * (p.r - p.g) + 240 * delta) delta
    if hue < 0 then hue + 360 else hue

/-- `getSaturation` (source lines 130–135): scale the channels to `[0,1]`,
then `(V - m) / V`.  On `ℚ` the division at `V = 0` returns the junk value
`0` where JS produces `NaN`; definedness is tracked by `getSaturationDef`
below and the `ℚ` value is only relied on when `V ≠ 0`. -/
def getSaturation (p : ColorPoint) : ℚ :=
  let m : ℚ := min ((p.r : ℚ) / 255) (min ((p.g : ℚ) / 255) ((p.b : ℚ) / 255))
  let V : ℚ := max ((p.r : ℚ) / 255) (max ((p.g : ℚ) / 255) ((p.b : ℚ) / 255))
  (V - m) / V

/-- `getSaturation` with its fallibility made explicit: the source divides
by `V`, and a zero divisor (JS: `0/0 = NaN`) is modelled as `none`. -/
def getSaturationDef (p : ColorPoint) : Option ℚ :=
  let m : ℚ := min ((p.r : ℚ) / 255) (min ((p.g : ℚ) / 255) ((p.b : ℚ) / 255))
  let V : ℚ := max ((p.r : ℚ) / 255) (max ((p.g : ℚ) / 255) ((p.b : ℚ) / 255))
  if V = 0 then none else some ((V - m) / V)

/-- `getValue` (source lines 141–143): `Math.max(...point) / 255 * 100`. -/
def getValue (p : ColorPoint) : ℚ :=
  (maxChannel p : ℚ) / 255 * 100

/-- An HSV triple as built by `getMonochromaticColors` (hue, saturation,
value); all three JS numbers, here `ℚ`. -/
abbrev HSVPoint := ℚ × ℚ × ℚ

/-- The `hsv_points` list of `getMonochromaticColors` (source lines 164–182):
with `n = step + 1`, per-step deltas
`clip = [[round(sat/n), round((100-value)/n)], [round((100-sat)/n), round(value/n)]]`,
first the loop `i = 0 .. n-1` pushing `[hue, i*clip[0][0], 100 - i*clip[0][1]]`,
then the original `[hue, saturation, value]`, then the loop
`i = n-1 .. 0` pushing `[hue, 100 - i*clip[1][0], i*clip[1][1]]`. -/
def monoHsvPoints (p : ColorPoint) (step : Nat) : List HSVPoint :=
  let hue : ℚ := (getHue p : ℤ)
  let saturation := getSaturation p
  let value := getValue p
  let clip_n : ℚ := (step : ℚ) + 1
  let c00 : ℚ := jsRoundQ (saturation / clip_n)
  let c01 : ℚ := jsRoundQ ((100 - value) / clip_n)
  let c10 : ℚ := jsRoundQ ((100 - saturation) / clip_n)
  let c11 : ℚ := jsRoundQ (value / clip_n)
  ((List.range (step + 1)).map fun i : ℕ => (hue, (i : ℚ) * c00, 100 - (i : ℚ) * c01))
    ++ [(hue, saturation, value)]
    ++ ((List.range (step + 1)).reverse.map fun i : ℕ =>
          (hue, 100 - (i : ℚ) * c10, (i : ℚ) * c11))

/-- `getMonochromaticColors` (source lines 164–184): build `hsv_points` and
map each through the external `hsvToRgb` collaborator (from `./utils`, not
part of this source tree), injected here as the opaque parameter `conv`. -/
def getMonochromaticColors (conv : ℚ → ℚ → ℚ → ColorPoint)
    (p : ColorPoint) (step : Nat) : List ColorPoint :=
  (monoHsvPoints p step).map fun hsv => conv hsv.1 hsv.2.1 hsv.2.2

/-- `sortColor(points, order, algorithm)` (source lines 152–156): JS
`Array.prototype.sort` is a stable comparison sort; with the consistent
comparator `algorithm(a) - algorithm(b)` (resp. reversed) its result is the
stable ascending (resp. descending) sort by `algorithm`, embedded as the
stable `insertionSort` on the induced relation.  The metric codomain is any
linear order (the source's metrics return JS numbers). -/
def sortColor {α : Type} [LinearOrder α] (points : List ColorPoint)
    (order : Bool) (algorithm : ColorPoint → α) : List ColorPoint :=
  if order then points.insertionSort fun a b => algorithm a ≤ algorithm b
  else points.insertionSort fun a b => algorithm b ≤ algorithm a

/-! ## Bridging lemmas: real square-root distance vs. its radicand -/

lemma euclideanDistanceSq_nonneg (a b : ColorPoint) :
    0 ≤ euclideanDistanceSq a b := by
  unfold euclideanDistanceSq
  positivity

lemma sqrt_euclidean_le_iff (a b c d : ColorPoint) :
    Real.sqrt ((euclideanDistanceSq a b : ℤ) : ℝ) ≤
        Real.sqrt ((euclideanDistanceSq c d : ℤ) : ℝ) ↔
      euclideanDistanceSq a b ≤ euclideanDistanceSq c d := by
  rw [Real.sqrt_le_sqrt_iff (by exact_mod_cast euclideanDistanceSq_nonneg c d)]
  exact_mod_cast Iff.rfl

lemma sqrt_euclidean_lt_iff (a b c d : ColorPoint) :
    Real.sqrt ((euclideanDistanceSq a b : ℤ) : ℝ) <
        Real.sqrt ((euclideanDistanceSq c d : ℤ) : ℝ) ↔
      euclideanDistanceSq a b < euclideanDistanceSq c d := by
  rw [Real.sqrt_lt_sqrt_iff (by exact_mod_cast euclideanDistanceSq_nonneg a b)]
  exact_mod_cast Iff.rfl

lemma sqrt_euclidean_le_one_iff (a b : ColorPoint) :
    Real.sqrt ((euclideanDistanceSq a b : ℤ) : ℝ) ≤ 1 ↔
      euclideanDistanceSq a b ≤ 1 := by
  rw [show (1 : ℝ) = Real.sqrt 1 by rw [Real.sqrt_one],
    Real.sqrt_le_sqrt_iff (by norm_num)]
  exact_mod_cast Iff.rfl

/-! ## The loop executes at most `maxIterations + 1` passes -/

lemma kmeansLoop_passes_le (rnd : Nat → Nat → Nat) (pixels : List ColorPoint)
    (k : Nat) : ∀ (fuel t : Nat) (old centers : List ColorPoint),
    (kmeansLoop rnd pixels k fuel t old centers).2 ≤ fuel := by
  intro fuel
  induction fuel with
  | zero =>
    intro t old centers
    rw [kmeansLoop]
    split <;> simp
  | succ n ih =>
    intro t old centers
    rw [kmeansLoop]
    split
    · simp
    · simpa using ih (t + 1) centers (updateStep rnd t pixels k centers)

/-- C3: for every input collection, `k` and `maxIterations`, the `kmeans`
loop terminates (the function below is total by construction, with the exact
remaining-budget fuel `maxIterations + 1 - iterations`) after at most
`maxIterations + 1` assignment/update passes — the bound is inclusive
because `iterations++ <= max_iterations` increments after testing. -/
theorem kmeans_terminates_within_bound (shuffle : List ColorPoint → List ColorPoint)
    (rnd : Nat → Nat → Nat) (pixels : List ColorPoint) (k maxIterations : Nat) :
    (kmeans shuffle rnd pixels k maxIterations).passes ≤ maxIterations + 1 :=
  kmeansLoop_passes_le rnd (shuffle pixels) k (maxIterations + 1) 0 []
    ((shuffle pixels).take k)

/-! ## The monochromatic expansion: structure of `hsv_points` -/

lemma monoHsvPoints_decomp (p : ColorPoint) (step : Nat) :
    monoHsvPoints p step =
      ((List.range (step + 1)).map fun i : ℕ =>
          (((getHue p : ℤ) : ℚ), (i : ℚ) * jsRoundQ (getSaturation p / ((step : ℚ) + 1)),
            100 - (i : ℚ) * jsRoundQ ((100 - getValue p) / ((step : ℚ) + 1))))
        ++ ([(((getHue p : ℤ) : ℚ), getSaturation p, getValue p)]
        ++ ((List.range (step + 1)).reverse.map fun i : ℕ =>
          (((getHue p : ℤ) : ℚ),
            100 - (i : ℚ) * jsRoundQ ((100 - getSaturation p) / ((step : ℚ) + 1)),
            (i : ℚ) * jsRoundQ (getValue p / ((step : ℚ) + 1))))) := by
  rw [monoHsvPoints, List.append_assoc]

lemma getElem_map_range_append_mid {α : Type} (n : Nat) (f : ℕ → α) (m : α)
    (B : List α) : (((List.range n).map f) ++ ([m] ++ B))[n]? = some m := by
  rw [List.getElem?_append_right (by rw [List.length_map, List.length_range])]
  rw [List.length_map, List.length_range, Nat.sub_self]
  simp

/-- C6: `getMonochromaticColors(p, step)` returns exactly `2*(step+1)+1`
colors, and the element at index `step+1` is the conversion of the original
point's derived HSV triple `(getHue p, getSaturation p, getValue p)` through
the (opaque, external) HSV→RGB collaborator. -/
theorem getMonochromaticColors_length_midpoint (conv : ℚ → ℚ → ℚ → ColorPoint)
    (p : ColorPoint) (step : Nat) :
    (getMonochromaticColors conv p step).length = 2 * (step + 1) + 1 ∧
    (getMonochromaticColors conv p step)[step + 1]? =
      some (conv ((getHue p : ℤ) : ℚ) (getSaturation p) (getValue p)) := by
  constructor
  · rw [getMonochromaticColors, List.length_map, monoHsvPoints_decomp,
      List.length_append, List.length_append, List.length_map, List.length_range,
      List.length_cons, List.length_nil, List.length_map, List.length_reverse,
      List.length_range]
    omega
  · rw [getMonochromaticColors, monoHsvPoints_decomp, List.map_append,
      List.map_append, List.map_map]
    exact getElem_map_range_append_mid (step + 1) _ _ _

/-- C2 (counterexample): the gradient is NOT ordered from dark to light.  At
the concrete input `[255, 0, 0]` with `step = 3` the HSV `value` component
along the sequence is `100,100,100,100,100,75,50,25,0` — it DESCENDS (light
to dark), so the before-midpoint elements are not a dark side.  Formally:
the value components do not form a `≤`-chain. -/
theorem monoHsvPoints_not_dark_to_light :
    ¬ List.Chain' (fun a b : HSVPoint => a.2.2 ≤ b.2.2)
        (monoHsvPoints ⟨255, 0, 0⟩ 3) := by
  intro h
  rw [show monoHsvPoints ⟨255, 0, 0⟩ 3 =
      [(0, 0, 100), (0, 0, 100), (0, 0, 100), (0, 0, 100), (0, 1, 100),
        (0, 25, 75), (0, 50, 50), (0, 75, 25), (0, 100, 0)] from by
    norm_num [monoHsvPoints, getSaturation, getValue, getHue, maxChannel,
      minChannel, jsRound, jsRoundQ, List.range_succ, Int.fdiv]] at h
  simp only [List.chain'_cons, List.chain'_singleton] at h
  norm_num at h

/-- C2 (amended): the sequence built by `getMonochromaticColors` is a
monochromatic gradient through the original hue with the original color at
the midpoint, but ordered from LIGHT to DARK: every element carries
`getHue p`, the first element is the lightest HSV point (saturation `0`,
value `100`), the last is black (saturation `100`, value `0`), and the
original HSV triple sits at index `step + 1`. -/
theorem monoHsvPoints_light_to_dark (p : ColorPoint) (step : Nat) :
    (monoHsvPoints p step).head? = some (((getHue p : ℤ) : ℚ), 0, 100) ∧
    (monoHsvPoints p step).getLast? = some (((getHue p : ℤ) : ℚ), 100, 0) ∧
    (monoHsvPoints p step)[step + 1]? =
      some (((getHue p : ℤ) : ℚ), getSaturation p, getValue p) ∧
    ∀ q ∈ monoHsvPoints p step, q.1 = ((getHue p : ℤ) : ℚ) := by
  refine ⟨?_, ?_, ?_, ?_⟩
  · rw [monoHsvPoints_decomp,
      List.head?_append_of_ne_nil _ (by simp [List.range_succ_eq_map]),
      List.range_succ_eq_map, List.map_cons, List.head?_cons]
    norm_num
  · rw [monoHsvPoints_decomp, List.getLast?_append_of_ne_nil _ (by simp),
      List.getLast?_append_of_ne_nil _ (by simp [List.range_succ_eq_map]),
      List.getLast?_eq_head?_reverse, ← List.map_reverse, List.reverse_reverse,
      List.range_succ_eq_map, List.map_cons, List.head?_cons]
    norm_num
  · rw [monoHsvPoints_decomp]
    exact getElem_map_range_append_mid (step + 1) _ _ _
  · rw [monoHsvPoints_decomp]
    intro q hq
    rcases List.mem_append.mp hq with h | h
    · rcases List.mem_map.mp h with ⟨i, _, rfl⟩; rfl
    · rcases List.mem_append.mp h with h | h
      · rcases List.mem_singleton.mp h with rfl; rfl
      · rcases List.mem_map.mp h with ⟨i, _, rfl⟩; rfl

/-! ## `kmeans` mutates the order of the caller's array, not its contents -/

/-- C1 (counterexample): `kmeans` DOES mutate the caller's points sequence.
Line 39 calls `pixels_array.sort(...)`, which shuffles in place with no
defensive copy: with the two-element input `[[0,0,0], [255,255,255]]` and a
run of the random comparator that swaps the two elements (`σ = [1, 0]`, a
permutation of the index range), the caller's array afterwards is NOT in its
original order. -/
theorem kmeans_mutates_input_order :
    (kmeans (applyPerm [1, 0]) (fun _ _ => 0)
        [⟨0, 0, 0⟩, ⟨255, 255, 255⟩] 1 1).pixelsAfter ≠
      [⟨0, 0, 0⟩, ⟨255, 255, 255⟩] := by decide

lemma range_length_filterMap_get (l : List ColorPoint) :
    (List.range l.length).filterMap l.get? = l := by
  induction l with
  | nil => rfl
  | cons a as ih =>
    rw [List.length_cons, List.range_succ_eq_map, List.filterMap_cons,
      List.filterMap_map]
    simp only [List.get?_cons_zero, Function.comp, List.get?_cons_succ]
    exact congrArg (a :: ·) ih

/-- C1 (amended): after a `kmeans` call the caller's sequence holds the same
ColorPoints as a permutation of the original — same elements, but possibly
in a different order, because the randomized initialization shuffle is
applied to the caller's array in place with no defensive copy. -/
theorem kmeans_pixelsAfter_perm (σ : List Nat) (rnd : Nat → Nat → Nat)
    (pixels : List ColorPoint) (k maxIterations : Nat)
    (hσ : σ.Perm (List.range pixels.length)) :
    ((kmeans (applyPerm σ) rnd pixels k maxIterations).pixelsAfter).Perm pixels := by
  show (applyPerm σ pixels).Perm pixels
  unfold applyPerm
  have h2 := hσ.filterMap pixels.get?
  rwa [range_length_filterMap_get pixels] at h2

/-- Witness for C1's amended theorem: a concrete swap of a two-element
input, where the theorem yields that the post-call array is a permutation
of the input. -/
theorem kmeans_pixelsAfter_perm_witness :
    (([1, 0] : List Nat)).Perm
        (List.range ([⟨0, 0, 0⟩, ⟨255, 255, 255⟩] : List ColorPoint).length) ∧
    ((kmeans (applyPerm [1, 0]) (fun _ _ => 0)
        [⟨0, 0, 0⟩, ⟨255, 255, 255⟩] 1 1).pixelsAfter).Perm
      [⟨0, 0, 0⟩, ⟨255, 255, 255⟩] :=
  ⟨by decide, kmeans_pixelsAfter_perm [1, 0] (fun _ _ => 0) _ 1 1 (by decide)⟩

/-! ## Center-count invariant -/

lemma pushAt_length (cl : List (List ColorPoint)) (i : Nat) (p : ColorPoint) :
    (pushAt cl i p).length = cl.length := by
  simp [pushAt]

lemma foldl_pushAt_length (centers : List ColorPoint) :
    ∀ (ps : List ColorPoint) (cl : List (List ColorPoint)),
    (ps.foldl (fun cl p => pushAt cl (nearestIdx centers p) p) cl).length =
      cl.length := by
  intro ps
  induction ps with
  | nil => intro cl; rfl
  | cons p ps ih =>
    intro cl
    rw [List.foldl_cons, ih, pushAt_length]

lemma assignClusters_length (centers : List ColorPoint) (k : Nat)
    (pixels : List ColorPoint) :
    (assignClusters centers k pixels).length = k := by
  rw [assignClusters, foldl_pushAt_length, List.length_replicate]

lemma updateStep_length (rnd : Nat → Nat → Nat) (t : Nat)
    (pixels : List ColorPoint) (k : Nat) (centers : List ColorPoint) :
    (updateStep rnd t pixels k centers).length = k := by
  rw [updateStep, List.length_map, List.enum_length, assignClusters_length]

lemma kmeansLoop_centers_length (rnd : Nat → Nat → Nat)
    (pixels : List ColorPoint) (k : Nat) :
    ∀ (fuel t : Nat) (old centers : List ColorPoint), centers.length = k →
    (kmeansLoop rnd pixels k fuel t old centers).1.length = k := by
  intro fuel
  induction fuel with
  | zero =>
    intro t old centers h
    rw [kmeansLoop]
    split
    · exact h
    · exact h
  | succ n ih =>
    intro t old centers h
    rw [kmeansLoop]
    split
    · exact h
    · exact ih (t + 1) centers (updateStep rnd t pixels k centers)
        (updateStep_length rnd t pixels k centers)

/-- C4: with `k ≤ N` the Centers sequence has length exactly `k` at
initialization (`slice(0, k)` of the shuffled input), after every
assignment/update pass (the update maps over exactly `k` clusters,
re-seeding empty ones rather than dropping them), and in the returned
sequence. -/
theorem kmeans_centers_length (shuffle : List ColorPoint → List ColorPoint)
    (rnd : Nat → Nat → Nat) (pixels : List ColorPoint) (k maxIterations : Nat)
    (hsh : (shuffle pixels).Perm pixels) (hk : k ≤ pixels.length) :
    ((shuffle pixels).take k).length = k ∧
    (∀ (t : Nat) (centers : List ColorPoint),
      (updateStep rnd t (shuffle pixels) k centers).length = k) ∧
    (kmeans shuffle rnd pixels k maxIterations).centers.length = k := by
  have hlen : ((shuffle pixels).take k).length = k := by
    rw [List.length_take, hsh.length_eq]
    omega
  exact ⟨hlen, fun t centers => updateStep_length rnd t (shuffle pixels) k centers,
    kmeansLoop_centers_length rnd (shuffle pixels) k (maxIterations + 1) 0 []
      ((shuffle pixels).take k) hlen⟩

/-- Witness for C4 at a concrete two-point input with `k = 2`. -/
theorem kmeans_centers_length_witness :
    (((id : List ColorPoint → List ColorPoint) [⟨1, 2, 3⟩, ⟨250, 10, 10⟩]).Perm
        [⟨1, 2, 3⟩, ⟨250, 10, 10⟩] ∧
      2 ≤ ([⟨1, 2, 3⟩, ⟨250, 10, 10⟩] : List ColorPoint).length) ∧
    (kmeans id (fun _ _ => 0) [⟨1, 2, 3⟩, ⟨250, 10, 10⟩] 2 5).centers.length = 2 :=
  ⟨⟨List.Perm.refl _, by decide⟩,
    (kmeans_centers_length id (fun _ _ => 0) [⟨1, 2, 3⟩, ⟨250, 10, 10⟩] 2 5
      (List.Perm.refl _) (by decide)).2.2⟩

lemma listMin_cons (x y : ℤ) (xs : List ℤ) :
    listMin (x :: y :: xs) = min x (listMin (y :: xs)) := rfl

lemma listMin_le : ∀ (l : List ℤ) (i : Nat), i < l.length → listMin l ≤ l.getD i 0
  | [x], 0, _ => le_refl x
  | x :: y :: xs, 0, _ => min_le_left _ _
  | x :: y :: xs, i + 1, h =>
    le_trans (min_le_right _ _)
      (listMin_le (y :: xs) i (by simpa using Nat.lt_of_succ_lt_succ h))

lemma idxOfMin_lt_length : ∀ (l : List ℤ), l ≠ [] → idxOfMin l < l.length
  | [x], _ => Nat.zero_lt_one
  | x :: y :: xs, _ => by
    rw [idxOfMin]
    split
    · simp
    · have := idxOfMin_lt_length (y :: xs) (by simp)
      simpa using Nat.succ_lt_succ this

lemma getD_idxOfMin : ∀ (l : List ℤ), l ≠ [] → l.getD (idxOfMin l) 0 = listMin l
  | [x], _ => rfl
  | x :: y :: xs, _ => by
    rw [idxOfMin, listMin_cons]
    split
    · next hle => simp [List.getD_cons_zero, min_eq_left hle]
    · next hgt =>
      rw [List.getD_cons_succ, getD_idxOfMin (y :: xs) (by simp),
        min_eq_right (le_of_lt (lt_of_not_le hgt))]

lemma idxOfMin_first : ∀ (l : List ℤ) (i : Nat), i < idxOfMin l →
    listMin l < l.getD i 0
  | [x], i, h => by simp [idxOfMin] at h
  | x :: y :: xs, i, h => by
    rw [idxOfMin] at h
    split at h
    · omega
    · next hgt =>
      rw [listMin_cons, min_eq_right (le_of_lt (lt_of_not_le hgt))]
      match i with
      | 0 => rw [List.getD_cons_zero]; exact lt_of_not_le hgt
      | i + 1 =>
        rw [List.getD_cons_succ]
        exact idxOfMin_first (y :: xs) i (Nat.lt_of_succ_lt_succ h)

lemma nearestIdx_lt_length (centers : List ColorPoint) (p : ColorPoint)
    (h : centers ≠ []) : nearestIdx centers p < centers.length := by
  rw [nearestIdx, ← List.length_map centers (fun c => euclideanDistanceSq c p)]
  exact idxOfMin_lt_length _ (by simpa using h)

lemma getD_map_distSq (centers : List ColorPoint) (p : ColorPoint) (i : Nat)
    (h : i < centers.length) :
    (centers.map fun c => euclideanDistanceSq c p).getD i 0 =
      euclideanDistanceSq (centers.getD i default) p := by
  rw [List.getD_eq_getElem _ _ (by simpa using h), List.getElem_map,
    List.getD_eq_getElem _ _ h]

lemma nearestIdx_min (centers : List ColorPoint) (p : ColorPoint)
    (hne : centers ≠ []) (i : Nat) (hi : i < centers.length) :
    euclideanDistanceSq (centers.getD (nearestIdx centers p) default) p ≤
      euclideanDistanceSq (centers.getD i default) p := by
  have h1 := getD_idxOfMin (centers.map fun c => euclideanDistanceSq c p)
    (by simpa using hne)
  rw [show idxOfMin (centers.map fun c => euclideanDistanceSq c p) =
    nearestIdx centers p from rfl] at h1
  rw [getD_map_distSq centers p _ (nearestIdx_lt_length centers p hne)] at h1
  have h2 := listMin_le (centers.map fun c => euclideanDistanceSq c p) i
    (by simpa using hi)
  rw [getD_map_distSq centers p i hi] at h2
  omega

lemma nearestIdx_strict (centers : List ColorPoint) (p : ColorPoint)
    (hne : centers ≠ []) (i : Nat) (hi : i < nearestIdx centers p) :
    euclideanDistanceSq (centers.getD (nearestIdx centers p) default) p <
      euclideanDistanceSq (centers.getD i default) p := by
  have hlt := nearestIdx_lt_length centers p hne
  have h1 := getD_idxOfMin (centers.map fun c => euclideanDistanceSq c p)
    (by simpa using hne)
  rw [show idxOfMin (centers.map fun c => euclideanDistanceSq c p) =
    nearestIdx centers p from rfl] at h1
  rw [getD_map_distSq centers p _ hlt] at h1
  have h2 := idxOfMin_first (centers.map fun c => euclideanDistanceSq c p) i
    (by rw [nearestIdx] at hi; exact hi)
  rw [getD_map_distSq centers p i (lt_trans hi hlt)] at h2
  omega

lemma pushAt_getD (cl : List (List ColorPoint)) (i : Nat) (p : ColorPoint)
    (j : Nat) (h : i < cl.length) :
    (pushAt cl i p).getD j [] =
      if i = j then cl.getD j [] ++ [p] else cl.getD j [] := by
  rw [pushAt]
  by_cases hij : i = j
  · subst hij
    rw [if_pos rfl, List.getD, List.get?_set_of_lt' _ _ h, if_pos rfl,
      Option.getD_some]
  · rw [if_neg hij, List.getD, List.get?_set_of_lt' _ _ h, if_neg hij, List.getD]

lemma foldl_pushAt_getD (centers : List ColorPoint) :
    ∀ (ps : List ColorPoint) (cl : List (List ColorPoint)) (j : Nat),
    (∀ p ∈ ps, nearestIdx centers p < cl.length) →
    (ps.foldl (fun cl p => pushAt cl (nearestIdx centers p) p) cl).getD j [] =
      cl.getD j [] ++ ps.filter (fun p => nearestIdx centers p == j) := by
  intro ps
  induction ps with
  | nil => intro cl j _; simp
  | cons p ps ih =>
    intro cl j hall
    rw [List.foldl_cons, ih (pushAt cl (nearestIdx centers p) p) j
      (fun q hq => by rw [pushAt_length]; exact hall q (List.mem_cons_of_mem p hq)),
      pushAt_getD cl (nearestIdx centers p) p j (hall p (List.mem_cons_self p ps))]
    rw [List.filter_cons]
    by_cases hij : nearestIdx centers p = j
    · simp only [hij, if_pos rfl, beq_self_eq_true, if_pos]
      rw [List.append_assoc, List.singleton_append]
    · simp only [if_neg hij, beq_iff_eq, hij, if_false]

lemma pushAt_flatten_perm (p : ColorPoint) :
    ∀ (cl : List (List ColorPoint)) (i : Nat), i < cl.length →
    ((pushAt cl i p).flatten).Perm (p :: cl.flatten) := by
  intro cl
  induction cl with
  | nil => intro i h; simp at h
  | cons c cs ih =>
    intro i h
    match i with
    | 0 =>
      rw [pushAt, List.set_cons_zero, List.getD_cons_zero, List.flatten_cons,
        List.flatten_cons, List.append_assoc, List.singleton_append]
      exact List.perm_middle
    | i + 1 =>
      rw [pushAt, List.set_cons_succ, List.getD_cons_succ, List.flatten_cons,
        List.flatten_cons]
      have hin := ih i (Nat.lt_of_succ_lt_succ (by simpa using h))
      rw [pushAt] at hin
      exact (hin.append_left c).trans List.perm_middle

lemma foldl_pushAt_flatten_perm (centers : List ColorPoint) :
    ∀ (ps : List ColorPoint) (cl : List (List ColorPoint)),
    (∀ p ∈ ps, nearestIdx centers p < cl.length) →
    ((ps.foldl (fun cl p => pushAt cl (nearestIdx centers p) p) cl).flatten).Perm
      (cl.flatten ++ ps) := by
  intro ps
  induction ps with
  | nil => intro cl _; simp
  | cons p ps ih =>
    intro cl hall
    rw [List.foldl_cons]
    have h1 := ih (pushAt cl (nearestIdx centers p) p)
      (fun q hq => by rw [pushAt_length]; exact hall q (List.mem_cons_of_mem p hq))
    have h2 := (pushAt_flatten_perm p cl (nearestIdx centers p)
      (hall p (List.mem_cons_self p ps))).append_right ps
    exact h1.trans (h2.trans (List.perm_middle.symm))

lemma replicate_nil_flatten (k : Nat) :
    (List.replicate k ([] : List ColorPoint)).flatten = [] := by
  induction k with
  | zero => rfl
  | succ n ih => rw [List.replicate_succ, List.flatten_cons, List.nil_append, ih]

/-- C5: in every assignment step, each input point is pushed into exactly
one cluster — the one indexed by the FIRST center attaining the minimum
Euclidean distance (`Real.sqrt` of the squared channel differences) in
index order — so the `k` clusters partition the input: their concatenation
is a permutation of the pixel list (no point lost or duplicated), and
cluster `j` is precisely the sublist of pixels whose first-argmin index is
`j`. -/
theorem assignClusters_partition (centers : List ColorPoint) (k : Nat)
    (pixels : List ColorPoint) (hk : centers.length = k) (hne : centers ≠ []) :
    ((assignClusters centers k pixels).flatten).Perm pixels ∧
    (∀ j : Nat, j < k → (assignClusters centers k pixels).getD j [] =
      pixels.filter fun p => nearestIdx centers p == j) ∧
    ∀ p : ColorPoint, nearestIdx centers p < centers.length ∧
      ∀ i : Nat, i < centers.length →
        (Real.sqrt ((euclideanDistanceSq
            (centers.getD (nearestIdx centers p) default) p : ℤ) : ℝ) ≤
          Real.sqrt ((euclideanDistanceSq (centers.getD i default) p : ℤ) : ℝ)) ∧
        (i < nearestIdx centers p →
          Real.sqrt ((euclideanDistanceSq
              (centers.getD (nearestIdx centers p) default) p : ℤ) : ℝ) <
            Real.sqrt ((euclideanDistanceSq (centers.getD i default) p : ℤ) : ℝ)) := by
  have hbound : ∀ p ∈ pixels,
      nearestIdx centers p < (List.replicate k ([] : List ColorPoint)).length := by
    intro p _
    rw [List.length_replicate, ← hk]
    exact nearestIdx_lt_length centers p hne
  refine ⟨?_, ?_, ?_⟩
  · have := foldl_pushAt_flatten_perm centers pixels (List.replicate k []) hbound
    rwa [replicate_nil_flatten, List.nil_append] at this
  · intro j hj
    rw [assignClusters, foldl_pushAt_getD centers pixels _ j hbound]
    simp
  · intro p
    refine ⟨nearestIdx_lt_length centers p hne, fun i hi => ⟨?_, fun hlt => ?_⟩⟩
    · exact (sqrt_euclidean_le_iff _ _ _ _).mpr (nearestIdx_min centers p hne i hi)
    · exact (sqrt_euclidean_lt_iff _ _ _ _).mpr (nearestIdx_strict centers p hne i hlt)

/-- Witness for C5: two centers, three concrete pixels. -/
theorem assignClusters_partition_witness :
    (([⟨0, 0, 0⟩, ⟨255, 255, 255⟩] : List ColorPoint).length = 2 ∧
      ([⟨0, 0, 0⟩, ⟨255, 255, 255⟩] : List ColorPoint) ≠ []) ∧
    ((assignClusters [⟨0, 0, 0⟩, ⟨255, 255, 255⟩] 2
        [⟨1, 2, 3⟩, ⟨200, 200, 200⟩, ⟨100, 100, 100⟩]).flatten).Perm
      [⟨1, 2, 3⟩, ⟨200, 200, 200⟩, ⟨100, 100, 100⟩] :=
  ⟨⟨by decide, by decide⟩,
    (assignClusters_partition [⟨0, 0, 0⟩, ⟨255, 255, 255⟩] 2
      [⟨1, 2, 3⟩, ⟨200, 200, 200⟩, ⟨100, 100, 100⟩] (by decide) (by decide)).1⟩

/-! ## The convergence test -/

lemma convPairs_iff : ∀ (old new : List ColorPoint), old.length = new.length →
    (convPairs old new = true ↔ ∀ i : Nat, i < old.length →
      euclideanDistanceSq (old.getD i default) (new.getD i default) ≤ 1) := by
  intro old
  induction old with
  | nil => intro new _; simp [convPairs]
  | cons a as ih =>
    intro new hlen
    match new with
    | [] => simp at hlen
    | b :: bs =>
      rw [convPairs]
      constructor
      · intro h i hi
        split at h
        · next hd =>
          match i with
          | 0 => simpa using hd
          | i + 1 =>
            exact (ih bs (by simpa using hlen)).mp h i (by simpa using hi)
        · exact absurd h (by simp)
      · intro h
        rw [if_pos (by simpa using h 0 (by simp))]
        exact (ih bs (by simpa using hlen)).mpr
          (fun i hi => by simpa using h (i + 1) (by simpa using hi))

/-- C7: `isConverged` compares `old_centers` to the current centers
pairwise by index and is `true` exactly when `old_centers` is nonempty and
every pair is at Euclidean distance ≤ 1; on an empty `old_centers` it is
always `false`, so every `kmeans` run performs at least one
assignment/update pass. -/
theorem isConverged_spec (old new : List ColorPoint)
    (hlen : old.length = new.length)
    (shuffle : List ColorPoint → List ColorPoint) (rnd : Nat → Nat → Nat)
    (pixels : List ColorPoint) (k maxIterations : Nat) :
    (isConverged old new = true ↔ old ≠ [] ∧ ∀ i : Nat, i < old.length →
      Real.sqrt ((euclideanDistanceSq (old.getD i default)
        (new.getD i default) : ℤ) : ℝ) ≤ 1) ∧
    isConverged [] new = false ∧
    1 ≤ (kmeans shuffle rnd pixels k maxIterations).passes := by
  refine ⟨?_, rfl, ?_⟩
  · rw [isConverged]
    constructor
    · intro h
      split at h
      · exact absurd h (by simp)
      · next hne =>
        refine ⟨by simpa [List.isEmpty_iff] using hne, fun i hi => ?_⟩
        rw [sqrt_euclidean_le_one_iff]
        exact (convPairs_iff old new hlen).mp h i hi
    · rintro ⟨hne, h⟩
      rw [if_neg (by simpa [List.isEmpty_iff] using hne)]
      exact (convPairs_iff old new hlen).mpr
        (fun i hi => (sqrt_euclidean_le_one_iff _ _).mp (h i hi))
  · rw [kmeans]
    show 1 ≤ (kmeansLoop rnd (shuffle pixels) k (maxIterations + 1) 0 [] _).2
    rw [kmeansLoop, if_neg (by rw [isConverged]; simp)]
    simp

/-- Witness for C7 at concrete center lists and a concrete `kmeans` call. -/
theorem isConverged_spec_witness :
    ([⟨0, 0, 0⟩] : List ColorPoint).length = ([⟨0, 0, 1⟩] : List ColorPoint).length ∧
    (isConverged [] [⟨0, 0, 1⟩] = false ∧
      1 ≤ (kmeans id (fun _ _ => 0) [⟨5, 5, 5⟩] 1 2).passes) :=
  ⟨rfl, (isConverged_spec [⟨0, 0, 0⟩] [⟨0, 0, 1⟩] rfl id (fun _ _ => 0)
    [⟨5, 5, 5⟩] 1 2).2⟩

/-! ## Sorting by a metric -/

/-- C8: `sortColor(points, true, metric)` sorts so that `metric` is
non-decreasing across adjacent elements, `sortColor(points, false, metric)`
so that it is non-increasing, and in both cases the result is a permutation
of the input (the stable comparison sort only rearranges the sequence). -/
theorem sortColor_spec {α : Type} [LinearOrder α]
    (points : List ColorPoint) (algorithm : ColorPoint → α) :
    List.Chain' (fun a b => algorithm a ≤ algorithm b)
        (sortColor points true algorithm) ∧
    (sortColor points true algorithm).Perm points ∧
    List.Chain' (fun a b => algorithm b ≤ algorithm a)
        (sortColor points false algorithm) ∧
    (sortColor points false algorithm).Perm points := by
  haveI h1 : IsTotal ColorPoint (fun a b => algorithm a ≤ algorithm b) :=
    ⟨fun a b => le_total (algorithm a) (algorithm b)⟩
  haveI h2 : IsTrans ColorPoint (fun a b => algorithm a ≤ algorithm b) :=
    ⟨fun _ _ _ hab hbc => le_trans hab hbc⟩
  haveI h3 : IsTotal ColorPoint (fun a b => algorithm b ≤ algorithm a) :=
    ⟨fun a b => le_total (algorithm b) (algorithm a)⟩
  haveI h4 : IsTrans ColorPoint (fun a b => algorithm b ≤ algorithm a) :=
    ⟨fun _ _ _ hab hbc => le_trans hbc hab⟩
  refine ⟨?_, ?_, ?_, ?_⟩
  · exact (List.sorted_insertionSort _ points).chain'
  · exact List.perm_insertionSort _ points
  · exact (List.sorted_insertionSort _ points).chain'
  · exact List.perm_insertionSort _ points

/-- Witness for C8: sorting three concrete points by the red channel. -/
theorem sortColor_spec_witness :
    (sortColor [⟨3, 0, 0⟩, ⟨1, 0, 0⟩, ⟨2, 0, 0⟩] true
        (fun p : ColorPoint => p.r)).Perm [⟨3, 0, 0⟩, ⟨1, 0, 0⟩, ⟨2, 0, 0⟩] ∧
    (sortColor [⟨3, 0, 0⟩, ⟨1, 0, 0⟩, ⟨2, 0, 0⟩] false
        (fun p : ColorPoint => p.r)).Perm [⟨3, 0, 0⟩, ⟨1, 0, 0⟩, ⟨2, 0, 0⟩] :=
  ⟨(sortColor_spec [⟨3, 0, 0⟩, ⟨1, 0, 0⟩, ⟨2, 0, 0⟩] (fun p : ColorPoint => p.r)).2.1,
    (sortColor_spec [⟨3, 0, 0⟩, ⟨1, 0, 0⟩, ⟨2, 0, 0⟩] (fun p : ColorPoint => p.r)).2.2.2⟩

/-! ## Saturation: definedness and range -/

lemma scaled_max_eq (p : ColorPoint) :
    max ((p.r : ℚ) / 255) (max ((p.g : ℚ) / 255) ((p.b : ℚ) / 255)) =
      (maxChannel p : ℚ) / 255 := by
  rw [maxChannel]
  push_cast
  rw [max_div_div_right (by norm_num : (0 : ℚ) ≤ 255),
    max_div_div_right (by norm_num : (0 : ℚ) ≤ 255)]

lemma scaled_min_eq (p : ColorPoint) :
    min ((p.r : ℚ) / 255) (min ((p.g : ℚ) / 255) ((p.b : ℚ) / 255)) =
      (minChannel p : ℚ) / 255 := by
  rw [minChannel]
  push_cast
  rw [min_div_div_right (by norm_num : (0 : ℚ) ≤ 255),
    min_div_div_right (by norm_num : (0 : ℚ) ≤ 255)]

/-- C9: `getSaturation` divides by the scaled maximum channel `V`, so a
division by zero happens exactly when the maximum channel is `0` — which,
for in-range inputs, means the pure black point — and for every point with
a positive maximum channel the division is defined and a numeric value is
returned (`some` in the `Option` model of the JS `NaN` outcome). -/
theorem getSaturation_division_by_zero (p : ColorPoint)
    (h : 0 ≤ p.r ∧ 0 ≤ p.g ∧ 0 ≤ p.b) :
    (getSaturationDef p = none ↔ maxChannel p = 0) ∧
    (maxChannel p = 0 ↔ p = ⟨0, 0, 0⟩) ∧
    (0 < maxChannel p → getSaturationDef p = some (getSaturation p)) := by
  refine ⟨?_, ?_, ?_⟩
  · rw [getSaturationDef]
    simp only [scaled_max_eq]
    constructor
    · intro hnone
      by_cases hV : (maxChannel p : ℚ) / 255 = 0
      · have : (maxChannel p : ℚ) = 0 := by
          rcases div_eq_zero_iff.mp hV with h0 | h0
          · exact h0
          · norm_num at h0
        exact_mod_cast this
      · rw [if_neg hV] at hnone; exact absurd hnone (by simp)
    · intro h0
      rw [if_pos (by rw [h0]; norm_num)]
  · rcases p with ⟨r, g, b⟩
    simp only [maxChannel, ColorPoint.mk.injEq]
    dsimp only at h ⊢
    omega
  · intro hpos
    rw [getSaturationDef, getSaturation]
    rw [if_neg (by
      rw [scaled_max_eq]
      intro hV
      rcases div_eq_zero_iff.mp hV with h0 | h0
      · have : maxChannel p = 0 := by exact_mod_cast h0
        omega
      · norm_num at h0)]

/-- C10: for channels in `[0, 255]` with a positive maximum,
`getSaturation` returns `(max − min) / max` of the channels-divided-by-255
(the scaling cancels), a unit fraction in `[0, 1]` — never scaled to the
`[0, 100]` percent range that the `getMonochromaticColors` per-step delta
formulas (`100 - saturation`, `saturation / n`) treat it as. -/
theorem getSaturation_unit_fraction (p : ColorPoint)
    (h : 0 ≤ p.r ∧ p.r ≤ 255 ∧ 0 ≤ p.g ∧ p.g ≤ 255 ∧ 0 ≤ p.b ∧ p.b ≤ 255)
    (hpos : 0 < maxChannel p) :
    getSaturation p = ((maxChannel p - minChannel p : ℤ) : ℚ) / ((maxChannel p : ℤ) : ℚ) ∧
    0 ≤ getSaturation p ∧ getSaturation p ≤ 1 := by
  have hM : (0 : ℚ) < (maxChannel p : ℚ) := by exact_mod_cast hpos
  have hmle : minChannel p ≤ maxChannel p := by
    rw [minChannel, maxChannel]; omega
  have hm0 : 0 ≤ minChannel p := by
    rw [minChannel]; omega
  have heq : getSaturation p =
      ((maxChannel p - minChannel p : ℤ) : ℚ) / ((maxChannel p : ℤ) : ℚ) := by
    rw [getSaturation]
    simp only [scaled_max_eq, scaled_min_eq]
    rw [div_sub_div_same]
    rw [div_div_div_cancel_right₀]
    · push_cast; ring_nf
    · norm_num
  refine ⟨heq, ?_, ?_⟩
  · rw [heq]
    apply div_nonneg
    · exact_mod_cast Int.sub_nonneg.mpr hmle
    · exact_mod_cast le_of_lt hpos
  · rw [heq, div_le_one (by exact_mod_cast hpos)]
    exact_mod_cast Int.sub_le_self _ hm0

/-- Witness for C9 at pure black, where the division by zero occurs. -/
theorem getSaturation_division_by_zero_witness :
    (0 ≤ (0 : ℤ) ∧ 0 ≤ (0 : ℤ) ∧ 0 ≤ (0 : ℤ)) ∧
    (getSaturationDef ⟨0, 0, 0⟩ = none ↔ maxChannel ⟨0, 0, 0⟩ = 0) :=
  ⟨⟨le_refl 0, le_refl 0, le_refl 0⟩,
    (getSaturation_division_by_zero ⟨0, 0, 0⟩ ⟨le_refl 0, le_refl 0, le_refl 0⟩).1⟩

/-- Witness for C10 at the concrete point `[255, 0, 0]` (saturation 1). -/
theorem getSaturation_unit_fraction_witness :
    (0 ≤ (255 : ℤ) ∧ (255 : ℤ) ≤ 255 ∧ 0 ≤ (0 : ℤ) ∧ (0 : ℤ) ≤ 255 ∧
        0 ≤ (0 : ℤ) ∧ (0 : ℤ) ≤ 255) ∧
    0 < maxChannel ⟨255, 0, 0⟩ ∧
    (0 ≤ getSaturation ⟨255, 0, 0⟩ ∧ getSaturation ⟨255, 0, 0⟩ ≤ 1) :=
  ⟨by norm_num, by decide,
    (getSaturation_unit_fraction ⟨255, 0, 0⟩ (by norm_num) (by decide)).2⟩
